import Mathlib

/-!
Shallow embedding of src/cargo.rs of the test-cdylib crate, together with a
model of the pieces of its dependencies that the file relies on: the message
iterator of cargo_metadata (Message::parse_stream) and the serde decoding of
the Metadata struct.  Paths are modelled as the UTF-8 strings carried by the
camino Utf8PathBuf values that cargo_metadata produces.
-/

/-- JSON values as produced by a JSON parser (models serde_json).  Numbers are
abstracted to integers since no examined code inspects numeric payloads. -/
inductive JValue where
  | null : JValue
  | bool : Bool → JValue
  | num : Int → JValue
  | str : String → JValue
  | arr : List JValue → JValue
  | obj : List (String × JValue) → JValue

/-- Modelled from the spec: the error type of the crate.  error.rs is used by
src/cargo.rs but defined outside the examined file.  The variants named in
src/cargo.rs are Cargo (process launch failure), CargoFail (BuildFailed),
CdylibNotFound and Metadata (metadata decode failure); the taxonomy of the
spec adds a message decode error, which models the conversion applied by the
try operator to an io error raised inside the parse_output message loop.
Payloads (io and serde errors) are dropped since nothing inspects them. -/
inductive Error where
  | Cargo : Error
  | CargoFail : Error
  | CdylibNotFound : Error
  | Metadata : Error
  | MessageDecode : Error
deriving DecidableEq

/-- The compiler-artifact message payload.  src/cargo.rs reads only the
filenames list, so the remaining fields are not modelled. -/
structure Artifact where
  filenames : List String
deriving DecidableEq

/-- cargo_metadata::Message, the tagged union decoded from one line of the
build progress stream.  The diagnostic payload of compilerMessage is dropped:
parse_output only prints it to standard error.  textLine is the fallback that
the message iterator produces for a line that does not decode as any known
message shape. -/
inductive Message where
  | compilerMessage : Message
  | compilerArtifact : Artifact → Message
  | buildScriptExecuted : Message
  | buildFinished : Message
  | textLine : String → Message
deriving DecidableEq

/-- Extract a JSON string. -/
def jsonString : JValue → Option String
  | .str s => some s
  | _ => none

/-- Extract a list of JSON strings, failing when any element is not one. -/
def jsonStringList : List JValue → Option (List String)
  | [] => some []
  | v :: vs =>
    match jsonString v, jsonStringList vs with
    | some s, some rest => some (s :: rest)
    | _, _ => none

/-- Field lookup in a decoded JSON object (first occurrence wins, as in the
serde deserializer that reads the tag of an internally tagged enum). -/
def getField (kvs : List (String × JValue)) (k : String) : Option JValue :=
  (kvs.find? (fun p => p.1 == k)).map (fun p => p.2)

/-- Decoding of one JSON document into a cargo_metadata::Message: the reason
field selects the variant (kebab-case names) and a compiler-artifact payload
must carry a filenames array of strings.  Payload fields that src/cargo.rs
never reads are abstracted away.  A document that does not decode is turned
into a textLine by the message iterator, never into an error. -/
def decodeMessage (v : JValue) : Option Message :=
  match v with
  | .obj kvs =>
    match getField kvs "reason" with
    | some (.str r) =>
      if r = "compiler-message" then some .compilerMessage
      else if r = "compiler-artifact" then
        match getField kvs "filenames" with
        | some (.arr vs) => (jsonStringList vs).map (fun fs => .compilerArtifact ⟨fs⟩)
        | _ => none
      else if r = "build-script-executed" then some .buildScriptExecuted
      else if r = "build-finished" then some .buildFinished
      else none
    | _ => none
  | _ => none

/-- One line of the captured standard output, before message decoding: either
a line whose bytes are not valid UTF-8 (reading it fails with an io error),
or a text line together with its JSON parse (none when the line is not valid
JSON). -/
inductive RawLine where
  | invalidUtf8 : RawLine
  | text : String → Option JValue → RawLine

/-- One item yielded by the message iterator of cargo_metadata: an io error,
or a decoded Message. -/
inductive LineItem where
  | ioErr : LineItem
  | msg : Message → LineItem
deriving DecidableEq

/-- The item Message::parse_stream yields for one line: a line failing the
UTF-8 read is an io error; a line that is not valid JSON, or whose JSON does
not decode as a known message shape, falls back to Message::TextLine carrying
the raw line. -/
def decodeLine : RawLine → LineItem
  | .invalidUtf8 => .ioErr
  | .text s j => .msg ((j.bind decodeMessage).getD (.textLine s))

/-- The process output consumed by parse_output: the exit status success flag
and the captured stdout, viewed as its sequence of lines. -/
structure BuildOutput where
  success : Bool
  stdout : List RawLine

/-- Split a character list on the Unix path separator. -/
def splitSlash : List Char → List (List Char)
  | [] => [[]]
  | c :: rest =>
    if c = '/' then [] :: splitSlash rest
    else
      match splitSlash rest with
      | [] => [[c]]
      | seg :: segs => (c :: seg) :: segs

/-- The final component of a Unix style path, as Utf8Path::file_name: empty
and current-directory components are skipped, and a path whose last component
is the parent directory has no file name. -/
def fileName (p : String) : Option String :=
  match ((splitSlash p.data).filter (fun seg => !seg.isEmpty && seg != ['.'])).getLast? with
  | none => none
  | some last => if last = ['.', '.'] then none else some (String.mk last)

/-- Helper for extension: walk the reversed characters of a file name,
accumulating the characters after the final dot; no dot, or a dot as the
first character of the name, means no extension. -/
def extAux (acc : List Char) : List Char → Option String
  | [] => none
  | c :: rest =>
    if c = '.' then
      if rest.isEmpty then none else some (String.mk acc)
    else extAux (c :: acc) rest

/-- Utf8Path::extension: the portion of the file name after its final dot,
provided that dot is not the first character of the file name. -/
def extension (p : String) : Option String :=
  (fileName p).bind (fun name => extAux [] name.data.reverse)

/-- The extension match of parse_output: does the filename carry one of the
recognized shared library extensions? -/
def isDylibExt (f : String) : Bool :=
  match extension f with
  | some e => e == "dll" || e == "dylib" || e == "so"
  | none => false

/-- Artifact selection as written in parse_output: keep the filenames with a
recognized extension and take the first, or fail with CdylibNotFound when
none remains.  The selected path is returned unchanged (into_std_path_buf
only changes its type, not its text). -/
def selectCdylib (fs : List String) : Except Error String :=
  match fs.filter isDylibExt with
  | [] => .error .CdylibNotFound
  | f :: _ => .ok f

/-- The message loop of parse_output: walk the stream items; the try operator
aborts on an io error; a compiler message is printed (a side effect dropped
here); a compiler artifact overwrites the stored one; every other message is
ignored. -/
def runStream : List RawLine → Option Artifact → Except Error (Option Artifact)
  | [], artifact => .ok artifact
  | l :: rest, artifact =>
    match decodeLine l with
    | .ioErr => .error .MessageDecode
    | .msg .compilerMessage => runStream rest artifact
    | .msg (.compilerArtifact a) => runStream rest (some a)
    | .msg .buildScriptExecuted => runStream rest artifact
    | .msg .buildFinished => runStream rest artifact
    | .msg (.textLine _) => runStream rest artifact

/-- parse_output from src/cargo.rs: run the message loop over stdout, then
fail with CargoFail on an unsuccessful exit status, then select the shared
library from the last captured artifact, failing with CargoFail when no
artifact message was seen at all. -/
def parse_output (result : BuildOutput) : Except Error String :=
  match runStream result.stdout none with
  | .error e => .error e
  | .ok artifact =>
    if !result.success then .error .CargoFail
    else
      match artifact with
      | some a => selectCdylib a.filenames
      | none => .error .CargoFail

/-- The artifact messages captured from a stream, in order. -/
def artifactsOf (stream : List RawLine) : List Artifact :=
  stream.filterMap (fun l =>
    match decodeLine l with
    | .msg (.compilerArtifact a) => some a
    | _ => none)

/-- Join on string slices with a separator, as Rust writes it. -/
def strJoin (sep : String) : List String → String
  | [] => ""
  | [x] => x
  | x :: xs => x ++ sep ++ strJoin sep xs

/-- feature_args from src/cargo.rs. -/
def feature_args : Option (List String) → List String
  | some features => ["--no-default-features", "--features", strJoin "," features]
  | none => []

/-- cargo_supports_offline from src/cargo.rs, over the outcome of running the
version probe: none models a probe process that could not be launched,
otherwise the flag is the exit status success bit (captured bytes ignored). -/
def cargo_supports_offline (probe : Option Bool) : Bool :=
  match probe with
  | none => false
  | some succeeded => succeeded

/-- The argument list assembled by cargo_build: the offline flag when the
probe succeeds, the build subcommand with JSON message format, then the
feature arguments.  rustflags::set_env only touches the environment, not the
arguments. -/
def cargo_build (probe : Option Bool) (features : Option (List String)) : List String :=
  (if cargo_supports_offline probe then ["--offline"] else []) ++
    ["build", "--message-format=json"] ++ feature_args features

/-- The Metadata struct of src/cargo.rs: two paths decoded from the cargo
metadata JSON document. -/
structure Metadata where
  target_directory : String
  workspace_root : String
deriving DecidableEq

/-- Store a required string field into its slot: storing fails on a duplicate
(the slot is already filled) or on a value that is not a string, as the serde
deserializer does. -/
def storeString : Option String → JValue → Option String
  | none, .str s => some s
  | _, _ => none

/-- End of the field map: both required fields must have been seen. -/
def finishMetadata : Option String → Option String → Option Metadata
  | some t, some w => some ⟨t, w⟩
  | _, _ => none

/-- Serde struct decoding of Metadata from the fields of a JSON object: both
fields are required strings, a duplicate known field is an error, unknown
fields are ignored, and failure returns nothing (no partial success). -/
def decodeMetadataFields : List (String × JValue) → Option String → Option String → Option Metadata
  | [], td, wr => finishMetadata td wr
  | (k, v) :: rest, td, wr =>
    if k = "target_directory" then
      match storeString td v with
      | some s => decodeMetadataFields rest (some s) wr
      | none => none
    else if k = "workspace_root" then
      match storeString wr v with
      | some s => decodeMetadataFields rest td (some s)
      | none => none
    else decodeMetadataFields rest td wr

/-- serde_json deserialization of the whole metadata document into Metadata:
the document must be one JSON object. -/
def decodeMetadata (v : JValue) : Option Metadata :=
  match v with
  | .obj kvs => decodeMetadataFields kvs none none
  | _ => none

/-- The process output consumed by metadata(): the exit status flag and the
captured stdout as a JSON parse result (none when the captured bytes are not
one valid JSON document). -/
structure MetaOutput where
  success : Bool
  stdout : Option JValue

/-- metadata from src/cargo.rs: launch the metadata query (none models a
launch failure, mapped to Error::Cargo), then decode the captured stdout with
serde_json, mapping any decode failure to Error::Metadata.  The exit status
of the query is never consulted. -/
def metadata (launch : Option MetaOutput) : Except Error Metadata :=
  match launch with
  | none => .error .Cargo
  | some output =>
    match output.stdout.bind decodeMetadata with
    | some m => .ok m
    | none => .error .Metadata

/-! Sample stream lines used by concrete witnesses and counterexamples. -/

/-- A compiler-artifact line whose filenames list holds a dep file and a
shared library. -/
def artLineSo : RawLine :=
  .text "artifact json" (some (.obj
    [("reason", .str "compiler-artifact"),
     ("filenames", .arr [.str "/t/libx.d", .str "/t/libx.so"])]))

/-- A second compiler-artifact line, reporting only a rlib. -/
def artLineRlib : RawLine :=
  .text "artifact json" (some (.obj
    [("reason", .str "compiler-artifact"),
     ("filenames", .arr [.str "/t/liby.rlib"])]))

/-- A compiler-message diagnostic line. -/
def diagLine : RawLine :=
  .text "diagnostic json" (some (.obj
    [("reason", .str "compiler-message"), ("message", .str "warning")]))

/-- A line that is not valid JSON. -/
def badLine : RawLine := .text "this line is not json" none

/-! Helper lemmas about the message loop. -/

/-- Last-wins accumulation of artifact messages into the stored slot. -/
def lastWins (l : List Artifact) (acc : Option Artifact) : Option Artifact :=
  l.foldl (fun _ a => some a) acc

/-- Folding the artifact list one step. -/
lemma lastWins_cons (a : Artifact) (l : List Artifact) (acc : Option Artifact) :
    lastWins (a :: l) acc = lastWins l (some a) := rfl

/-- The accumulated artifact of a stream ending in a is a. -/
lemma lastWins_concat (l : List Artifact) (a : Artifact) (acc : Option Artifact) :
    lastWins (l ++ [a]) acc = some a := by
  induction l generalizing acc with
  | nil => rfl
  | cons b bs ih => rw [List.cons_append, lastWins_cons]; exact ih (some b)

/-- When no line of the stream raises an io error, the message loop of
parse_output returns, last-wins, the final artifact message of the stream
(or its initial accumulator when the stream reports none). -/
lemma runStream_eq_lastWins (stream : List RawLine) :
    ∀ acc : Option Artifact, LineItem.ioErr ∉ stream.map decodeLine →
      runStream stream acc = .ok (lastWins (artifactsOf stream) acc) := by
  induction stream with
  | nil => intro acc _; simp [runStream, artifactsOf, lastWins, List.foldl]
  | cons l rest ih =>
    intro acc h
    have hrest : LineItem.ioErr ∉ rest.map decodeLine := by
      intro hm
      exact h (by rw [List.map_cons]; exact List.mem_cons_of_mem _ hm)
    have hl : decodeLine l ≠ .ioErr := by
      intro he
      exact h (by rw [List.map_cons, he]; exact List.mem_cons_self _ _)
    cases hd : decodeLine l with
    | ioErr => exact absurd hd hl
    | msg m =>
      cases m with
      | compilerMessage =>
        simp only [runStream, artifactsOf, List.filterMap_cons, hd]
        exact ih acc hrest
      | compilerArtifact a =>
        simp only [runStream, artifactsOf, List.filterMap_cons, hd, lastWins_cons]
        exact ih (some a) hrest
      | buildScriptExecuted =>
        simp only [runStream, artifactsOf, List.filterMap_cons, hd]
        exact ih acc hrest
      | buildFinished =>
        simp only [runStream, artifactsOf, List.filterMap_cons, hd]
        exact ih acc hrest
      | textLine s =>
        simp only [runStream, artifactsOf, List.filterMap_cons, hd]
        exact ih acc hrest

/-- Claim C1: for every captured process output whose exit status is failure
(and whose stdout stream raises no io error while being read), parse_output
returns Error.CargoFail, whatever messages the stream contained: in
particular a valid compiler-artifact message does not override the failing
status. -/
theorem parse_output_fail_status (result : BuildOutput)
    (h : LineItem.ioErr ∉ result.stdout.map decodeLine)
    (hfail : result.success = false) :
    parse_output result = .error Error.CargoFail := by
  have hrun := runStream_eq_lastWins result.stdout none h
  simp [parse_output, hrun, hfail]

/-- Witness for C1: a failing exit status with an artifact message carrying a
shared library still yields CargoFail. -/
theorem parse_output_fail_status_witness :
    parse_output ⟨false, [diagLine, artLineSo]⟩ = .error Error.CargoFail :=
  parse_output_fail_status ⟨false, [diagLine, artLineSo]⟩ (by decide) rfl

/-- Claim C2: for every captured process output whose exit status is success
and whose stream (read without io errors) contains zero compiler-artifact
messages, parse_output returns Error.CargoFail, not a path and not
CdylibNotFound. -/
theorem parse_output_zero_artifacts (result : BuildOutput)
    (h : LineItem.ioErr ∉ result.stdout.map decodeLine)
    (hsucc : result.success = true)
    (hzero : artifactsOf result.stdout = []) :
    parse_output result = .error Error.CargoFail := by
  have hrun := runStream_eq_lastWins result.stdout none h
  rw [hzero] at hrun
  simp [parse_output, hrun, hsucc, lastWins, List.foldl]

/-- Witness for C2: success status over a stream of one diagnostic and one
ignored line yields CargoFail. -/
theorem parse_output_zero_artifacts_witness :
    parse_output ⟨true, [diagLine, badLine]⟩ = .error Error.CargoFail :=
  parse_output_zero_artifacts ⟨true, [diagLine, badLine]⟩ (by decide) rfl (by decide)

/-- Claim C4: when a stream read without io errors contains N artifact
messages (N at least one, expressed by listing the earlier ones and the last
one), the artifact examined by parse_output under a successful exit status is
exactly the last one: the result is the selection over the last artifact's
filenames, whatever diagnostics were interleaved and whatever the earlier
artifact messages reported. -/
theorem parse_output_last_artifact (result : BuildOutput)
    (arts : List Artifact) (a : Artifact)
    (h : LineItem.ioErr ∉ result.stdout.map decodeLine)
    (hsucc : result.success = true)
    (harts : artifactsOf result.stdout = arts ++ [a]) :
    parse_output result = selectCdylib a.filenames := by
  have hrun := runStream_eq_lastWins result.stdout none h
  rw [harts, lastWins_concat] at hrun
  simp [parse_output, hrun, hsucc]

/-- Witness for C4: with an rlib-only artifact message overwritten by a later
artifact message carrying a shared library, interleaved with diagnostics, the
selection happens on the last artifact and returns its library. -/
theorem parse_output_last_artifact_witness :
    parse_output ⟨true, [diagLine, artLineRlib, diagLine, artLineSo]⟩ =
      selectCdylib ["/t/libx.d", "/t/libx.so"] :=
  parse_output_last_artifact ⟨true, [diagLine, artLineRlib, diagLine, artLineSo]⟩
    [⟨["/t/liby.rlib"]⟩] ⟨["/t/libx.d", "/t/libx.so"]⟩ (by decide) rfl (by decide)

/-- When selection succeeds, the returned filename is the first one of the
list carrying a recognized extension: the list splits around it with every
earlier filename rejected by the extension match. -/
lemma selectCdylib_ok_first :
    ∀ (fs : List String) (f : String), selectCdylib fs = .ok f →
      isDylibExt f = true ∧
        ∃ pre post, fs = pre ++ f :: post ∧ ∀ g ∈ pre, isDylibExt g = false := by
  intro fs
  induction fs with
  | nil => intro f h; simp [selectCdylib, List.filter] at h
  | cons a rest ih =>
    intro f h
    cases ha : isDylibExt a with
    | true =>
      have hsel : selectCdylib (a :: rest) = .ok a := by
        unfold selectCdylib
        rw [List.filter_cons_of_pos ha]
      rw [hsel] at h
      cases h
      exact ⟨ha, [], rest, rfl, by intro g hg; cases hg⟩
    | false =>
      have hneg : ¬ isDylibExt a = true := by rw [ha]; exact Bool.false_ne_true
      have hsel : selectCdylib (a :: rest) = selectCdylib rest := by
        unfold selectCdylib
        rw [List.filter_cons_of_neg hneg]
      rw [hsel] at h
      obtain ⟨hf, pre, post, heq, hpre⟩ := ih f h
      refine ⟨hf, a :: pre, post, by rw [heq]; rfl, ?_⟩
      intro g hg
      rcases List.mem_cons.mp hg with hg | hg
      · rw [hg]; exact ha
      · exact hpre g hg

/-- Selection fails exactly when the filter keeps nothing. -/
lemma selectCdylib_notFound_iff (fs : List String) :
    selectCdylib fs = .error Error.CdylibNotFound ↔ ∀ f ∈ fs, isDylibExt f = false := by
  cases hfil : fs.filter isDylibExt with
  | nil =>
    have hsel : selectCdylib fs = .error Error.CdylibNotFound := by
      unfold selectCdylib; rw [hfil]
    rw [hsel]
    constructor
    · intro _ f hf
      have := List.filter_eq_nil_iff.mp hfil f hf
      simpa using this
    · intro _; rfl
  | cons g gs =>
    have hsel : selectCdylib fs = .ok g := by
      unfold selectCdylib; rw [hfil]
    rw [hsel]
    constructor
    · intro h; cases h
    · intro hall
      exfalso
      have hg : g ∈ fs.filter isDylibExt := by rw [hfil]; exact List.mem_cons_self _ _
      have hm := List.mem_filter.mp hg
      have h1 := hm.1
      have h2 := hm.2
      rw [hall g h1] at h2
      exact Bool.false_ne_true h2

/-- Claim C3: given a retained artifact's filename list, selection returns
CdylibNotFound exactly when no filename carries a recognized shared library
extension, and a successful selection returns, unchanged, the first filename
of the list whose extension the match isDylibExt recognizes (dll, dylib or
so): it is a member of the list, it passes the extension match, and every
filename before it fails the match. -/
theorem selectCdylib_spec (fs : List String) :
    (selectCdylib fs = .error Error.CdylibNotFound ↔ ∀ f ∈ fs, isDylibExt f = false)
  ∧ (∀ f, selectCdylib fs = .ok f →
      f ∈ fs ∧ isDylibExt f = true ∧
        ∃ pre post, fs = pre ++ f :: post ∧ ∀ g ∈ pre, isDylibExt g = false) := by
  refine ⟨selectCdylib_notFound_iff fs, ?_⟩
  intro f h
  obtain ⟨hf, pre, post, heq, hpre⟩ := selectCdylib_ok_first fs f h
  exact ⟨by rw [heq]; exact List.mem_append_right pre (List.mem_cons_self f post), hf,
    pre, post, heq, hpre⟩

/-- Witness for C3: over a dep file, a rlib and a shared library, selection
returns the library, skipping the two earlier filenames. -/
theorem selectCdylib_spec_witness :
    "/t/libx.so" ∈ ["/t/libx.d", "/t/liby.rlib", "/t/libx.so"] ∧
      isDylibExt "/t/libx.so" = true ∧
      ∃ pre post, ["/t/libx.d", "/t/liby.rlib", "/t/libx.so"] = pre ++ "/t/libx.so" :: post ∧
        ∀ g ∈ pre, isDylibExt g = false :=
  (selectCdylib_spec ["/t/libx.d", "/t/liby.rlib", "/t/libx.so"]).2 "/t/libx.so" (by rfl)

/-- Claim C10: a filename is only ever selected when its final extension is
exactly dll, dylib or so; matching is case sensitive and looks only at the
final extension component, so a versioned library name, an upper case
variant, and an extensionless name are never selected. -/
theorem isDylibExt_exact :
    (∀ fs f, selectCdylib fs = .ok f →
      extension f = some "dll" ∨ extension f = some "dylib" ∨ extension f = some "so")
  ∧ extension "libfoo.so.1" = some "1" ∧ isDylibExt "libfoo.so.1" = false
  ∧ extension "libfoo.SO" = some "SO" ∧ isDylibExt "libfoo.SO" = false
  ∧ extension "libfoo" = none ∧ isDylibExt "libfoo" = false := by
  refine ⟨?_, by decide, by decide, by decide, by decide, by decide, by decide⟩
  intro fs f h
  have hf : isDylibExt f = true := (selectCdylib_ok_first fs f h).1
  unfold isDylibExt at hf
  cases he : extension f with
  | none => rw [he] at hf; cases hf
  | some e =>
    rw [he] at hf
    simp only [Bool.or_eq_true, beq_iff_eq] at hf
    rcases hf with (hf | hf) | hf
    · exact Or.inl (by rw [hf])
    · exact Or.inr (Or.inl (by rw [hf]))
    · exact Or.inr (Or.inr (by rw [hf]))

/-- Witness for C10: a concrete selection only returns a recognized final
extension. -/
theorem isDylibExt_exact_witness :
    extension "/t/libz.dylib" = some "dll" ∨ extension "/t/libz.dylib" = some "dylib" ∨
      extension "/t/libz.dylib" = some "so" :=
  isDylibExt_exact.1 ["/t/libz.dylib"] "/t/libz.dylib" (by rfl)

/-- A stream line yielded as a text-line message is invisible to the message
loop: the loop over a stream with it equals the loop over the stream without
it, whatever came before and after and whatever is stored. -/
lemma runStream_skip_textLine (l : RawLine) (s : String)
    (hl : decodeLine l = .msg (.textLine s)) :
    ∀ (pre post : List RawLine) (acc : Option Artifact),
      runStream (pre ++ l :: post) acc = runStream (pre ++ post) acc := by
  intro pre
  induction pre with
  | nil =>
    intro post acc
    simp only [List.nil_append, runStream, hl]
  | cons x xs ih =>
    intro post acc
    simp only [List.cons_append, runStream]
    cases hx : decodeLine x with
    | ioErr => rfl
    | msg m =>
      cases m with
      | compilerMessage => exact ih post acc
      | compilerArtifact a => exact ih post (some a)
      | buildScriptExecuted => exact ih post acc
      | buildFinished => exact ih post acc
      | textLine t => exact ih post acc

/-- Claim C5, amended: a line of the progress stream that is not valid JSON,
or is valid JSON not matching any known message shape, is yielded by the
message iterator as a text-line message, which parse_output silently skips,
processing all subsequent lines: the result equals the result on the stream
without that line, and no MessageDecode error arises from it.  Only a line
whose bytes fail the UTF-8 read aborts processing with an error. -/
theorem parse_output_skips_undecoded_line (succ : Bool) (l : RawLine) (s : String)
    (pre post : List RawLine) (hl : decodeLine l = .msg (.textLine s)) :
    parse_output ⟨succ, pre ++ l :: post⟩ = parse_output ⟨succ, pre ++ post⟩ := by
  simp only [parse_output, runStream_skip_textLine l s hl pre post]

/-- Witness for the amended C5: dropping a non-JSON line leaves the result
unchanged. -/
theorem parse_output_skips_undecoded_line_witness :
    parse_output ⟨true, [badLine, artLineSo]⟩ = parse_output ⟨true, [artLineSo]⟩ :=
  parse_output_skips_undecoded_line true badLine "this line is not json" [] [artLineSo] rfl

/-- Counterexample to C5 as stated: a stream whose first line is not valid
JSON does not make parse_output return a message decode error, and the
artifact line after it is still processed, so the build result is the shared
library it reports. -/
theorem parse_output_malformed_line_cex :
    parse_output ⟨true, [badLine, artLineSo]⟩ = .ok "/t/libx.so" ∧
      parse_output ⟨true, [badLine, artLineSo]⟩ ≠ .error Error.MessageDecode := by
  constructor
  · rfl
  · intro hc
    have hok : parse_output ⟨true, [badLine, artLineSo]⟩ = .ok "/t/libx.so" := rfl
    rw [hok] at hc
    exact Except.noConfusion hc

/-- Claim C6: a supplied feature list yields exactly the disable-defaults
flag, the features flag and the comma-joined list, so the list of a and b
joins to a,b; an absent feature list yields no arguments at all. -/
theorem feature_args_spec :
    (∀ fs, feature_args (some fs) =
      ["--no-default-features", "--features", strJoin "," fs])
  ∧ feature_args (some ["a", "b"]) = ["--no-default-features", "--features", "a,b"]
  ∧ feature_args none = [] := by
  refine ⟨fun fs => rfl, by decide, rfl⟩

/-- Claim C8: the offline probe never propagates an error: a probe process
that could not be launched reads as false, a launched probe reads exactly its
exit status success bit, and cargo_build places the offline flag in front of
the build arguments exactly when the probe reads true (stated both as the
full argument list and as a membership equivalence, the latter under the
side condition that the joined feature list is not itself the literal offline
flag). -/
theorem cargo_build_offline_spec :
    cargo_supports_offline none = false
  ∧ (∀ succeeded, cargo_supports_offline (some succeeded) = succeeded)
  ∧ (∀ probe features, cargo_build probe features =
      (if cargo_supports_offline probe then ["--offline"] else []) ++
        "build" :: "--message-format=json" :: feature_args features)
  ∧ (∀ probe features, strJoin "," (features.getD []) ≠ "--offline" →
      ("--offline" ∈ cargo_build probe features ↔ cargo_supports_offline probe = true)) := by
  refine ⟨rfl, fun _ => rfl, ?_, ?_⟩
  · intro probe features
    cases hp : cargo_supports_offline probe <;> simp [cargo_build, hp]
  · intro probe features hf
    cases hp : cargo_supports_offline probe with
    | true => simp [cargo_build, hp]
    | false =>
      simp only [cargo_build, hp, Bool.false_eq_true, if_false, List.nil_append]
      constructor
      · intro hmem
        exfalso
        cases features with
        | none => exact absurd hmem (by decide)
        | some fs =>
          simp only [feature_args, List.cons_append, List.nil_append, List.mem_cons,
            List.not_mem_nil, or_false] at hmem
          rcases hmem with h | h | h | h | h
          · exact absurd h (by decide)
          · exact absurd h (by decide)
          · exact absurd h (by decide)
          · exact absurd h (by decide)
          · exact hf h.symm
      · intro h
        exact absurd h (by decide)

/-- Witness for C8: with a successful probe and explicit features, the
offline flag is present. -/
theorem cargo_build_offline_spec_witness :
    "--offline" ∈ cargo_build (some true) (some ["a", "b"]) ↔
      cargo_supports_offline (some true) = true :=
  cargo_build_offline_spec.2.2.2 (some true) (some ["a", "b"]) (by decide)

/-- Claim C9: the metadata query never inspects the exit status of a launched
invocation: the result only depends on the captured stdout, a launched
invocation never surfaces as CargoFail (nor does a failed launch), and every
launched invocation either fails with the Metadata decode error or succeeds. -/
theorem metadata_ignores_exit_status :
    (∀ s1 s2 out, metadata (some ⟨s1, out⟩) = metadata (some ⟨s2, out⟩))
  ∧ (∀ launch, metadata launch ≠ .error Error.CargoFail)
  ∧ (∀ status out, metadata (some ⟨status, out⟩) = .error Error.Metadata ∨
      ∃ m, metadata (some ⟨status, out⟩) = .ok m) := by
  refine ⟨fun _ _ _ => rfl, ?_, ?_⟩
  · intro launch
    cases launch with
    | none => intro h; exact Error.noConfusion (Except.error.inj h)
    | some output =>
      simp only [metadata]
      cases output.stdout.bind decodeMetadata with
      | none => intro h; exact Error.noConfusion (Except.error.inj h)
      | some m => intro h; exact Except.noConfusion h
  · intro status out
    simp only [metadata]
    cases out.bind decodeMetadata with
    | none => exact Or.inl rfl
    | some m => exact Or.inr ⟨m, rfl⟩

/-- Witness for C9: a launched metadata query with empty stdout and a failing
exit status is not a CargoFail. -/
theorem metadata_ignores_exit_status_witness :
    metadata (some ⟨false, none⟩) ≠ .error Error.CargoFail :=
  metadata_ignores_exit_status.2.1 (some ⟨false, none⟩)

/-- Fields whose keys are neither of the two known names are skipped by the
struct decoder. -/
lemma decodeMetadataFields_append_unknown :
    ∀ (l rest : List (String × JValue)) (td wr : Option String),
      (∀ p ∈ l, p.1 ≠ "target_directory" ∧ p.1 ≠ "workspace_root") →
      decodeMetadataFields (l ++ rest) td wr = decodeMetadataFields rest td wr := by
  intro l
  induction l with
  | nil => intro rest td wr _; rfl
  | cons q qs ih =>
    intro rest td wr h
    obtain ⟨k, v⟩ := q
    have hk := h (k, v) (List.mem_cons_self _ _)
    rw [List.cons_append]
    simp only [decodeMetadataFields]
    rw [if_neg hk.1, if_neg hk.2]
    exact ih rest td wr (fun p hp => h p (List.mem_cons_of_mem _ hp))

/-- Once both known fields are read, trailing unknown fields do not disturb
the decoded value. -/
lemma decodeMetadataFields_unknown_done (l : List (String × JValue)) (td wr : String)
    (h : ∀ p ∈ l, p.1 ≠ "target_directory" ∧ p.1 ≠ "workspace_root") :
    decodeMetadataFields l (some td) (some wr) = some ⟨td, wr⟩ := by
  have happ := decodeMetadataFields_append_unknown l [] (some td) (some wr) h
  rw [List.append_nil] at happ
  rw [happ]
  rfl

/-- A document with no workspace_root field cannot decode. -/
lemma decodeMetadataFields_no_wr :
    ∀ (l : List (String × JValue)) (td : Option String),
      (∀ p ∈ l, p.1 ≠ "workspace_root") →
      decodeMetadataFields l td none = none := by
  intro l
  induction l with
  | nil => intro td _; cases td <;> rfl
  | cons q qs ih =>
    intro td h
    obtain ⟨k, v⟩ := q
    have hk : k ≠ "workspace_root" := h (k, v) (List.mem_cons_self _ _)
    have hrest : ∀ p ∈ qs, p.1 ≠ "workspace_root" :=
      fun p hp => h p (List.mem_cons_of_mem _ hp)
    simp only [decodeMetadataFields]
    by_cases h1 : k = "target_directory"
    · rw [if_pos h1]
      cases hsv : storeString td v with
      | some s => exact ih (some s) hrest
      | none => rfl
    · rw [if_neg h1, if_neg hk]
      exact ih td hrest

/-- A document with no target_directory field cannot decode. -/
lemma decodeMetadataFields_no_td :
    ∀ (l : List (String × JValue)) (wr : Option String),
      (∀ p ∈ l, p.1 ≠ "target_directory") →
      decodeMetadataFields l none wr = none := by
  intro l
  induction l with
  | nil => intro wr _; cases wr <;> rfl
  | cons q qs ih =>
    intro wr h
    obtain ⟨k, v⟩ := q
    have hk : k ≠ "target_directory" := h (k, v) (List.mem_cons_self _ _)
    have hrest : ∀ p ∈ qs, p.1 ≠ "target_directory" :=
      fun p hp => h p (List.mem_cons_of_mem _ hp)
    simp only [decodeMetadataFields]
    rw [if_neg hk]
    by_cases h2 : k = "workspace_root"
    · rw [if_pos h2]
      cases hsv : storeString wr v with
      | some s => exact ih (some s) hrest
      | none => rfl
    · rw [if_neg h2]
      exact ih wr hrest

/-- Claim C7: a metadata document carrying the two expected string fields,
surrounded anywhere by unknown fields, decodes to exactly those two paths
with the extras ignored; a document missing workspace_root, or missing
target_directory, fails to decode and metadata surfaces Error.Metadata, with
no partial success. -/
theorem metadata_decode_spec :
    (∀ (status : Bool) (pre mid post : List (String × JValue)),
      (∀ p ∈ pre ++ mid ++ post, p.1 ≠ "target_directory" ∧ p.1 ≠ "workspace_root") →
      metadata (some ⟨status, some (.obj (pre ++ ("target_directory", JValue.str "/x/target") ::
        (mid ++ ("workspace_root", JValue.str "/x") :: post)))⟩) =
        .ok ⟨"/x/target", "/x"⟩)
  ∧ (∀ (status : Bool) (kvs : List (String × JValue)),
      (∀ p ∈ kvs, p.1 ≠ "workspace_root") →
      metadata (some ⟨status, some (.obj kvs)⟩) = .error Error.Metadata)
  ∧ (∀ (status : Bool) (kvs : List (String × JValue)),
      (∀ p ∈ kvs, p.1 ≠ "target_directory") →
      metadata (some ⟨status, some (.obj kvs)⟩) = .error Error.Metadata) := by
  refine ⟨?_, ?_, ?_⟩
  · intro status pre mid post h
    have hpre : ∀ p ∈ pre, p.1 ≠ "target_directory" ∧ p.1 ≠ "workspace_root" :=
      fun p hp => h p (List.mem_append_left _ (List.mem_append_left _ hp))
    have hmid : ∀ p ∈ mid, p.1 ≠ "target_directory" ∧ p.1 ≠ "workspace_root" :=
      fun p hp => h p (List.mem_append_left _ (List.mem_append_right _ hp))
    have hpost : ∀ p ∈ post, p.1 ≠ "target_directory" ∧ p.1 ≠ "workspace_root" :=
      fun p hp => h p (List.mem_append_right _ hp)
    have hfields : decodeMetadataFields
        (pre ++ ("target_directory", JValue.str "/x/target") ::
          (mid ++ ("workspace_root", JValue.str "/x") :: post)) none none =
        some ⟨"/x/target", "/x"⟩ :=
      calc decodeMetadataFields (pre ++ ("target_directory", JValue.str "/x/target") ::
            (mid ++ ("workspace_root", JValue.str "/x") :: post)) none none
          = decodeMetadataFields (("target_directory", JValue.str "/x/target") ::
            (mid ++ ("workspace_root", JValue.str "/x") :: post)) none none :=
            decodeMetadataFields_append_unknown pre _ none none hpre
        _ = decodeMetadataFields (mid ++ ("workspace_root", JValue.str "/x") :: post)
            (some "/x/target") none := rfl
        _ = decodeMetadataFields (("workspace_root", JValue.str "/x") :: post)
            (some "/x/target") none :=
            decodeMetadataFields_append_unknown mid _ _ _ hmid
        _ = decodeMetadataFields post (some "/x/target") (some "/x") := rfl
        _ = some ⟨"/x/target", "/x"⟩ :=
            decodeMetadataFields_unknown_done post "/x/target" "/x" hpost
    have hm : metadata (some ⟨status, some (.obj (pre ++
        ("target_directory", JValue.str "/x/target") ::
          (mid ++ ("workspace_root", JValue.str "/x") :: post)))⟩) =
        match decodeMetadataFields (pre ++ ("target_directory", JValue.str "/x/target") ::
          (mid ++ ("workspace_root", JValue.str "/x") :: post)) none none with
        | some m => Except.ok m
        | none => Except.error Error.Metadata := rfl
    rw [hm, hfields]
  · intro status kvs h
    have hnone := decodeMetadataFields_no_wr kvs none h
    have hm : metadata (some ⟨status, some (.obj kvs)⟩) =
        match decodeMetadataFields kvs none none with
        | some m => Except.ok m
        | none => Except.error Error.Metadata := rfl
    rw [hm, hnone]
  · intro status kvs h
    have hnone := decodeMetadataFields_no_td kvs none h
    have hm : metadata (some ⟨status, some (.obj kvs)⟩) =
        match decodeMetadataFields kvs none none with
        | some m => Except.ok m
        | none => Except.error Error.Metadata := rfl
    rw [hm, hnone]

/-- Witness for C7: a concrete document with extra fields decodes to the two
paths, and a concrete document lacking workspace_root surfaces the metadata
decode error. -/
theorem metadata_decode_spec_witness :
    metadata (some ⟨true, some (.obj [("extra", JValue.num 1),
        ("target_directory", JValue.str "/x/target"),
        ("workspace_root", JValue.str "/x"), ("junk", JValue.null)])⟩) =
      .ok ⟨"/x/target", "/x"⟩ ∧
    metadata (some ⟨false, some (.obj [("target_directory", JValue.str "/x/target")])⟩) =
      .error Error.Metadata :=
  ⟨metadata_decode_spec.1 true [("extra", JValue.num 1)] [] [("junk", JValue.null)] (by decide),
   metadata_decode_spec.2.1 false [("target_directory", JValue.str "/x/target")] (by decide)⟩
